import Mathlib

/-!
Verification of the randomized-response local-differential-privacy script
(`src/algorithms/randomized_response_var_input_size.py`).

The source is a single Python script with three parts:
  * `randomized_response(value, epsilon)` — flips a bit: it draws a uniform
    value `r` in `[0,1)` and returns `value` when `r < p` with
    `p = exp ε / (1 + exp ε)`, otherwise `1 - value` (lines 7-21);
  * `analyze_data(data, epsilon)` — sums the column, noises every entry,
    sums the noised column, and denoises the count with
    `(noised/n - (1-p)) / (2p-1) * n` (lines 26-38);
  * a benchmarking driver that, for each requested size, skips sizes larger
    than the dataset, runs 10 trials on the first `size` rows, and averages
    the counts, the runtimes and a relative error (lines 46-80).

The embedding makes the randomness explicit: `randomized_response` receives
the uniform draw `r` as an argument, the per-trial draws are a list (one
draw per row, in row order, matching `Series.apply`), and the driver receives
an oracle of draws and of elapsed times indexed by position.  Machine floats
are modelled by real numbers.
-/

open MeasureTheory

/-- The retention probability the source computes twice
(lines 17 and 34): `p = np.exp(epsilon) / (1 + np.exp(epsilon))`. -/
noncomputable def retentionProb (ε : ℝ) : ℝ :=
  Real.exp ε / (1 + Real.exp ε)

/-- `randomized_response(value, epsilon)` (source lines 7-21), with the call
`np.random.rand()` made explicit as the argument `r`:
returns `value` when `r < p` and `1 - value` otherwise.
The source performs no validation of `value` or `epsilon`. -/
noncomputable def randomized_response (value : ℤ) (ε : ℝ) (r : ℝ) : ℤ :=
  if r < retentionProb ε then value else 1 - value

/-- Line 28: `data['HvyAlcoholConsump'].apply(lambda x: randomized_response(x, epsilon))`;
each row consumes one fresh draw from `rs`, in row order. -/
noncomputable def noiseColumn (col : List ℤ) (ε : ℝ) (rs : List ℝ) : List ℤ :=
  List.zipWith (fun v r => randomized_response v ε r) col rs

/-- `analyze_data(data, epsilon)` (source lines 26-38): returns the triple
`(original_count, noised_count, denoised_count)`.  The column of the data
frame is `col`, the draws consumed by the `apply` are `rs`. -/
noncomputable def analyze_data (col : List ℤ) (ε : ℝ) (rs : List ℝ) : ℤ × ℤ × ℝ :=
  let original_count := col.sum
  let noised := noiseColumn col ε rs
  let noised_count := noised.sum
  let total_count : ℕ := col.length
  let p := retentionProb ε
  let denoised_proportion :=
    ((noised_count : ℝ) / (total_count : ℝ) - (1 - p)) / (2 * p - 1)
  let denoised_count := denoised_proportion * (total_count : ℝ)
  (original_count, noised_count, denoised_count)

/-- The estimator exactly as the specification words it:
`estimated_proportion = (noised_count/n − (1 − p)) / (2p − 1)` and
`estimated_count = estimated_proportion × n`, with
`p = e^ε/(1+e^ε)` recomputed from the same `ε`. -/
noncomputable def estimatorSpec (ε : ℝ) (noised_count : ℤ) (n : ℕ) : ℝ :=
  let p := Real.exp ε / (1 + Real.exp ε)
  ((noised_count : ℝ) / (n : ℝ) - (1 - p)) / (2 * p - 1) * (n : ℝ)

/- ## Basic facts about the retention probability -/

lemma retentionProb_pos (ε : ℝ) : 0 < retentionProb ε := by
  unfold retentionProb
  have h1 : 0 < Real.exp ε := Real.exp_pos ε
  positivity

lemma retentionProb_lt_one (ε : ℝ) : retentionProb ε < 1 := by
  unfold retentionProb
  have h1 : 0 < 1 + Real.exp ε := by positivity
  rw [div_lt_one h1]
  linarith

lemma half_lt_retentionProb {ε : ℝ} (hε : 0 < ε) :
    1 / 2 < retentionProb ε := by
  unfold retentionProb
  have h1 : 1 < Real.exp ε := Real.one_lt_exp_iff.mpr hε
  have h2 : 0 < 1 + Real.exp ε := by linarith
  rw [div_lt_div_iff₀ (by norm_num) h2]
  linarith

lemma retentionProb_zero : retentionProb 0 = 1 / 2 := by
  unfold retentionProb
  rw [Real.exp_zero]
  norm_num

lemma denom_pos {ε : ℝ} (hε : 0 < ε) : 0 < 2 * retentionProb ε - 1 := by
  have := half_lt_retentionProb hε
  linarith

/- ## Claim theorems -/

/-- C3: for every finite `ε > 0`, the retention probability the program
computes, `p = e^ε/(1+e^ε)`, satisfies `0.5 < p < 1`. -/
theorem retentionProb_bounds (ε : ℝ) (hε : 0 < ε) :
    1 / 2 < retentionProb ε ∧ retentionProb ε < 1 :=
  ⟨half_lt_retentionProb hε, retentionProb_lt_one ε⟩

/-- Witness for C3 at `ε = 1`. -/
theorem retentionProb_bounds_witness :
    (0 : ℝ) < 1 ∧ (1 / 2 < retentionProb 1 ∧ retentionProb 1 < 1) :=
  ⟨by norm_num, retentionProb_bounds 1 (by norm_num)⟩

/-- C10: for every input `v` (in particular `v ∈ {0,1}`), every real `ε`
(including `ε ≤ 0`) and every draw `r`, the mechanism returns either `v` or
`1 - v`; hence for `v ∈ {0,1}` the output is again in `{0,1}`. -/
theorem randomized_response_range (v : ℤ) (ε r : ℝ) :
    (randomized_response v ε r = v ∨ randomized_response v ε r = 1 - v) ∧
      (v = 0 ∨ v = 1 →
        randomized_response v ε r = 0 ∨ randomized_response v ε r = 1) := by
  constructor
  · unfold randomized_response
    by_cases h : r < retentionProb ε
    · left; simp [h]
    · right; simp [h]
  · rintro (rfl | rfl) <;> unfold randomized_response <;>
      by_cases h : r < retentionProb ε <;> simp [h]

/-- Witness for C10 at `v = 1`, `ε = -1`, `r = 0`. -/
theorem randomized_response_range_witness :
    (randomized_response 1 (-1) 0 = 1 ∨ randomized_response 1 (-1) 0 = 1 - 1) ∧
      ((1 : ℤ) = 0 ∨ (1 : ℤ) = 1 →
        randomized_response 1 (-1) 0 = 0 ∨ randomized_response 1 (-1) 0 = 1) :=
  randomized_response_range 1 (-1) 0

/-- C5 counterexample: the source performs no input validation.  Called with
the out-of-range observation `v = 2` (and `ε = 1`, draw `r = 0`) the
mechanism does not fail: it produces the noised observation `2`. -/
theorem randomized_response_invalid_input_produces_output :
    randomized_response 2 1 0 = 2 := by
  unfold randomized_response
  rw [if_pos (retentionProb_pos 1)]

/-- C5 amended: the mechanism performs no validation of `v` or `ε`;
for every input — including `v ∉ {0,1}` and `ε ≤ 0` — it produces a noised
observation equal to `v` or `1 - v`, and no error path exists.  In
particular the invalid inputs `v = 2` and `ε = -1` yield outputs. -/
theorem randomized_response_no_validation :
    (∀ (v : ℤ) (ε r : ℝ),
        randomized_response v ε r = v ∨ randomized_response v ε r = 1 - v) ∧
      randomized_response 2 1 0 = 2 ∧ randomized_response 0 (-1) 2 = 1 := by
  refine ⟨fun v ε r => ?_, ?_, ?_⟩
  · unfold randomized_response
    by_cases h : r < retentionProb ε
    · left; rw [if_pos h]
    · right; rw [if_neg h]
  · unfold randomized_response
    rw [if_pos (retentionProb_pos 1)]
  · unfold randomized_response
    rw [if_neg (by linarith [retentionProb_lt_one (-1)] : ¬ (2:ℝ) < retentionProb (-1))]
    norm_num

/-- C1: for every column, `ε` and draw list, with `n = col.length > 0` and
`2p - 1 ≠ 0`, the denoised count computed by `analyze_data` (source lines
33-36) equals the specification's estimator
`((noised_count/n - (1 - p)) / (2p - 1)) · n` with `p = e^ε/(1+e^ε)`
recomputed from the same `ε`; moreover the result is not clamped to
`[0, n]`: there is a run whose estimate strictly exceeds `n`. -/
theorem analyze_data_estimator_formula :
    (∀ (col : List ℤ) (ε : ℝ) (rs : List ℝ),
        0 < col.length → 2 * retentionProb ε - 1 ≠ 0 →
        (analyze_data col ε rs).2.2 =
          estimatorSpec ε (noiseColumn col ε rs).sum col.length) ∧
      (∃ (col : List ℤ) (ε : ℝ) (rs : List ℝ),
        ((col.length : ℝ) < (analyze_data col ε rs).2.2)) := by
  constructor
  · intro col ε rs _ _
    rfl
  · refine ⟨[0], 1, [2], ?_⟩
    have hp1 : retentionProb 1 < 1 := retentionProb_lt_one 1
    have hph : 1 / 2 < retentionProb 1 := half_lt_retentionProb one_pos
    have hd : 0 < 2 * retentionProb 1 - 1 := by linarith
    have hcol : noiseColumn [0] 1 [2] = [1] := by
      unfold noiseColumn
      simp [randomized_response, show ¬ (2:ℝ) < retentionProb 1 by linarith]
    have hval : (analyze_data [0] 1 [2]).2.2 =
        retentionProb 1 / (2 * retentionProb 1 - 1) := by
      simp [analyze_data, hcol]
    rw [hval]
    have hlen : ((([0] : List ℤ).length : ℕ) : ℝ) = 1 := by simp
    rw [hlen, lt_div_iff₀ hd]
    linarith

/-- Witness for C1 at `col = [0,1]`, `ε = 1`, `rs = [0,0]`. -/
theorem analyze_data_estimator_formula_witness :
    0 < ([0, 1] : List ℤ).length ∧ 2 * retentionProb 1 - 1 ≠ 0 ∧
      (analyze_data [0, 1] 1 [0, 0]).2.2 =
        estimatorSpec 1 (noiseColumn [0, 1] 1 [0, 0]).sum
          ([0, 1] : List ℤ).length := by
  have hd : 2 * retentionProb 1 - 1 ≠ 0 :=
    ne_of_gt (denom_pos one_pos)
  exact ⟨by decide, hd,
    analyze_data_estimator_formula.1 [0, 1] 1 [0, 0] (by decide) hd⟩

/-- C6: the estimated count depends only on `(noised_count, total_n, p)`:
two runs of `analyze_data` that agree on the noised sum, the length and `ε`
compute the same denoised count, whatever the raw observations (and hence
the true counts) were. -/
theorem estimate_depends_only_on_noised (col1 col2 : List ℤ) (ε : ℝ)
    (rs1 rs2 : List ℝ)
    (hlen : col1.length = col2.length)
    (hnoise : (noiseColumn col1 ε rs1).sum = (noiseColumn col2 ε rs2).sum) :
    (analyze_data col1 ε rs1).2.2 = (analyze_data col2 ε rs2).2.2 := by
  simp only [analyze_data]
  rw [hlen, hnoise]

/-- Witness for C6: the runs on `[1]` (true count 1) and `[0]` (true count 0)
with draws `[0]` and `[2]` have equal noised sums, and the theorem gives
equal estimates. -/
theorem estimate_depends_only_on_noised_witness :
    ([1] : List ℤ).length = ([0] : List ℤ).length ∧
      (noiseColumn [1] 1 [0]).sum = (noiseColumn [0] 1 [2]).sum ∧
      (analyze_data [1] 1 [0]).2.2 = (analyze_data [0] 1 [2]).2.2 := by
  have h1 : noiseColumn [1] 1 [0] = [1] := by
    unfold noiseColumn
    simp [randomized_response, retentionProb_pos 1]
  have h2 : noiseColumn [0] 1 [2] = [1] := by
    unfold noiseColumn
    simp [randomized_response,
      show ¬ (2:ℝ) < retentionProb 1 by linarith [retentionProb_lt_one 1]]
  have hlen : ([1] : List ℤ).length = ([0] : List ℤ).length := rfl
  have hsum : (noiseColumn [1] 1 [0]).sum = (noiseColumn [0] 1 [2]).sum := by
    rw [h1, h2]
  exact ⟨hlen, hsum,
    estimate_depends_only_on_noised [1] [0] 1 [0] [2] hlen hsum⟩

/-- C4 counterexample: the source contains no `DegenerateMechanism` check.
Invoked at `ε = 0`, so with retention probability exactly `1/2` and zero
denominator `2p - 1`, `analyze_data` does not fail: it evaluates the
estimator formula with the zero denominator and returns a result tuple
(original count and noised count included). -/
theorem analyze_data_degenerate_returns_result :
    retentionProb 0 = 1 / 2 ∧
      2 * retentionProb 0 - 1 = 0 ∧
      (analyze_data [1] 0 [0]).1 = 1 ∧
      (analyze_data [1] 0 [0]).2.1 = 1 ∧
      (analyze_data [1] 0 [0]).2.2 =
        (((noiseColumn [1] 0 [0]).sum : ℝ) / 1 - (1 - retentionProb 0)) /
          (2 * retentionProb 0 - 1) * 1 := by
  have hden : 2 * retentionProb 0 - 1 = 0 := by
    rw [retentionProb_zero]; norm_num
  have hcol : noiseColumn [1] 0 [0] = [1] := by
    unfold noiseColumn
    simp [randomized_response, retentionProb_pos 0]
  refine ⟨retentionProb_zero, hden, ?_, ?_, ?_⟩
  · simp [analyze_data]
  · simp [analyze_data, hcol]
  · simp [analyze_data, hcol]

/-- C4 amended: when the estimator runs with retention probability exactly
`0.5` (`ε = 0`), the denominator `2p - 1` is zero, yet the code performs no
check and raises no error: on every input it still returns the full result
tuple, with the estimate obtained by evaluating the formula at the zero
denominator. -/
theorem analyze_data_degenerate_no_check (col : List ℤ) (rs : List ℝ) :
    2 * retentionProb 0 - 1 = 0 ∧
      analyze_data col 0 rs =
        (col.sum, (noiseColumn col 0 rs).sum,
          (((noiseColumn col 0 rs).sum : ℝ) / (col.length : ℝ) -
              (1 - retentionProb 0)) / (2 * retentionProb 0 - 1) *
            (col.length : ℝ)) := by
  refine ⟨?_, rfl⟩
  rw [retentionProb_zero]; norm_num

/-- C2: for a valid observation `v ∈ {0,1}` and `ε > 0`:
(i) the mechanism returns `v` exactly when the fresh uniform draw satisfies
`r < p(ε)` and `1 - v` otherwise; (ii) over a uniform draw on `[0,1)` the
event `v' = v` has probability (Lebesgue measure) `p(ε)` and the event
`v' = 1 - v` has probability `1 - p(ε)`; (iii) in the column transform each
row `i` consumes exactly the `i`-th draw, so its outcome is a function of
its own value and draw only, independent of every other row. -/
theorem randomized_response_distribution (v : ℤ) (ε : ℝ)
    (hv : v = 0 ∨ v = 1) (hε : 0 < ε) :
    (∀ r : ℝ,
        (r < retentionProb ε → randomized_response v ε r = v) ∧
        (¬ r < retentionProb ε → randomized_response v ε r = 1 - v)) ∧
      volume {r ∈ Set.Ico (0:ℝ) 1 | randomized_response v ε r = v} =
        ENNReal.ofReal (retentionProb ε) ∧
      volume {r ∈ Set.Ico (0:ℝ) 1 | randomized_response v ε r = 1 - v} =
        ENNReal.ofReal (1 - retentionProb ε) ∧
      (∀ (col : List ℤ) (rs : List ℝ) (i : ℕ) (w : ℤ) (r : ℝ),
        col[i]? = some w → rs[i]? = some r →
        (noiseColumn col ε rs)[i]? = some (randomized_response w ε r)) := by
  have hp0 : 0 < retentionProb ε := retentionProb_pos ε
  have hp1 : retentionProb ε < 1 := retentionProb_lt_one ε
  have hne : (1 : ℤ) - v ≠ v := by rcases hv with rfl | rfl <;> decide
  refine ⟨?_, ?_, ?_, ?_⟩
  · intro r
    constructor
    · intro h; unfold randomized_response; rw [if_pos h]
    · intro h; unfold randomized_response; rw [if_neg h]
  · have hs : {r ∈ Set.Ico (0:ℝ) 1 | randomized_response v ε r = v} =
        Set.Ico 0 (retentionProb ε) := by
      ext r
      simp only [Set.mem_setOf_eq, Set.mem_Ico, randomized_response]
      constructor
      · rintro ⟨⟨h0, _⟩, heq⟩
        refine ⟨h0, ?_⟩
        by_contra hge
        rw [if_neg hge] at heq
        exact hne heq
      · rintro ⟨h0, hlt⟩
        exact ⟨⟨h0, lt_trans hlt hp1⟩, if_pos hlt⟩
    rw [hs, Real.volume_Ico, sub_zero]
  · have hs : {r ∈ Set.Ico (0:ℝ) 1 | randomized_response v ε r = 1 - v} =
        Set.Ico (retentionProb ε) 1 := by
      ext r
      simp only [Set.mem_setOf_eq, Set.mem_Ico, randomized_response]
      constructor
      · rintro ⟨⟨_, h1⟩, heq⟩
        refine ⟨?_, h1⟩
        by_contra hlt
        rw [not_le] at hlt
        rw [if_pos hlt] at heq
        exact hne heq.symm
      · rintro ⟨hge, h1⟩
        refine ⟨⟨le_trans hp0.le hge, h1⟩, ?_⟩
        rw [if_neg (not_lt.mpr hge)]
    rw [hs, Real.volume_Ico]
  · intro col rs i w r hw hr
    unfold noiseColumn
    simp [List.getElem?_zipWith', hw, hr]

/-- Witness for C2 at `v = 1`, `ε = 1`. -/
theorem randomized_response_distribution_witness :
    ((1 : ℤ) = 0 ∨ (1 : ℤ) = 1) ∧ (0 : ℝ) < 1 ∧
      ((∀ r : ℝ,
          (r < retentionProb 1 → randomized_response 1 1 r = 1) ∧
          (¬ r < retentionProb 1 → randomized_response 1 1 r = 1 - 1)) ∧
        volume {r ∈ Set.Ico (0:ℝ) 1 | randomized_response 1 1 r = 1} =
          ENNReal.ofReal (retentionProb 1) ∧
        volume {r ∈ Set.Ico (0:ℝ) 1 | randomized_response 1 1 r = 1 - 1} =
          ENNReal.ofReal (1 - retentionProb 1) ∧
        (∀ (col : List ℤ) (rs : List ℝ) (i : ℕ) (w : ℤ) (r : ℝ),
          col[i]? = some w → rs[i]? = some r →
          (noiseColumn col 1 rs)[i]? = some (randomized_response w 1 r))) :=
  ⟨Or.inr rfl, one_pos,
    randomized_response_distribution 1 1 (Or.inr rfl) one_pos⟩

/- ## The benchmarking driver (source lines 46-80) -/

/-- `np.mean` of a list of numbers: sum divided by length. -/
noncomputable def npMean (xs : List ℝ) : ℝ := xs.sum / xs.length

/-- One result row of the driver (the tuple appended on line 80):
`(size, mean_original_count, mean_noised_count, mean_denoised_count,
relative_error, mean_runtime)`. -/
structure SizeSummary where
  size : ℕ
  mean_original_count : ℝ
  mean_noised_count : ℝ
  mean_denoised_count : ℝ
  relative_error : ℝ
  mean_runtime : ℝ

/-- The inner trial loop (source lines 58-71): `ntrials` times, take the
first `size` rows of the data and run `analyze_data` on them, appending the
original count, the noised count, the denoised count and the elapsed time
to four accumulator lists.  Trial `t` consumes the draws `draws t`; its
elapsed wall-clock time is the oracle value `times t`. -/
noncomputable def trialLoop (data : List ℤ) (size : ℕ) (ε : ℝ)
    (draws : ℕ → List ℝ) (times : ℕ → ℝ) (ntrials : ℕ) :
    List ℤ × List ℤ × List ℝ × List ℝ :=
  (List.range ntrials).foldl
    (fun acc t =>
      let subset := data.take size
      let result := analyze_data subset ε (draws t)
      (acc.1 ++ [result.1], acc.2.1 ++ [result.2.1],
        acc.2.2.1 ++ [result.2.2], acc.2.2.2 ++ [times t]))
    ([], [], [], [])

/-- The per-size aggregation (source lines 73-80): means of the four
accumulated lists and `relative_error = |mean_denoised - mean_original| / size`. -/
noncomputable def summaryFor (data : List ℤ) (size : ℕ) (ε : ℝ)
    (draws : ℕ → List ℝ) (times : ℕ → ℝ) (ntrials : ℕ) : SizeSummary :=
  let acc := trialLoop data size ε draws times ntrials
  let mean_original_count := npMean (acc.1.map fun z : ℤ => (z : ℝ))
  let mean_noised_count := npMean (acc.2.1.map fun z : ℤ => (z : ℝ))
  let mean_denoised_count := npMean acc.2.2.1
  let mean_runtime := npMean acc.2.2.2
  let relative_error :=
    |mean_denoised_count - mean_original_count| / (size : ℝ)
  ⟨size, mean_original_count, mean_noised_count, mean_denoised_count,
    relative_error, mean_runtime⟩

/-- The outer size loop (source lines 49-80): walk the requested sizes in
order; a size larger than the dataset is skipped (`continue`, line 51) and
every other size contributes one summary.  The oracles are indexed by the
position in the remaining size list, then by trial. -/
noncomputable def runBenchmark (data : List ℤ) (ε : ℝ) (ntrials : ℕ) :
    List ℕ → (ℕ → ℕ → List ℝ) → (ℕ → ℕ → ℝ) → List SizeSummary
  | [], _, _ => []
  | size :: rest, draws, times =>
    if data.length < size then
      runBenchmark data ε ntrials rest
        (fun i => draws (i + 1)) (fun i => times (i + 1))
    else
      summaryFor data size ε (draws 0) (times 0) ntrials ::
        runBenchmark data ε ntrials rest
          (fun i => draws (i + 1)) (fun i => times (i + 1))

/-- Spec-side reading of step 3 of the Trial Runner: the list of trial
outcomes, one `analyze_data` result per trial index, each on the first
`size` observations. -/
noncomputable def trialRecords (data : List ℤ) (size : ℕ) (ε : ℝ)
    (draws : ℕ → List ℝ) (ntrials : ℕ) : List (ℤ × ℤ × ℝ) :=
  (List.range ntrials).map fun t => analyze_data (data.take size) ε (draws t)

/-- The Size Summary as the specification words steps 4-5 of the Trial
Runner: arithmetic means, over all trials, of true count, noised count,
estimated count and elapsed time, and
`relative_error = |mean_estimated_count - mean_true_count| / s` with the
requested size `s` as denominator. -/
noncomputable def summarySpec (data : List ℤ) (size : ℕ) (ε : ℝ)
    (draws : ℕ → List ℝ) (times : ℕ → ℝ) (ntrials : ℕ) : SizeSummary :=
  let records := trialRecords data size ε draws ntrials
  let mean_true := (records.map fun r => ((r.1 : ℤ) : ℝ)).sum / (ntrials : ℝ)
  let mean_noised :=
    (records.map fun r => ((r.2.1 : ℤ) : ℝ)).sum / (ntrials : ℝ)
  let mean_est := (records.map fun r => r.2.2).sum / (ntrials : ℝ)
  let mean_time := ((List.range ntrials).map times).sum / (ntrials : ℝ)
  ⟨size, mean_true, mean_noised, mean_est,
    |mean_est - mean_true| / (size : ℝ), mean_time⟩

lemma foldl_four_append (f1 f2 : ℕ → ℤ) (f3 f4 : ℕ → ℝ) (l : List ℕ)
    (acc : List ℤ × List ℤ × List ℝ × List ℝ) :
    l.foldl (fun acc t => (acc.1 ++ [f1 t], acc.2.1 ++ [f2 t],
        acc.2.2.1 ++ [f3 t], acc.2.2.2 ++ [f4 t])) acc =
      (acc.1 ++ l.map f1, acc.2.1 ++ l.map f2,
        acc.2.2.1 ++ l.map f3, acc.2.2.2 ++ l.map f4) := by
  induction l generalizing acc with
  | nil => simp
  | cons x xs ih => simp [List.foldl_cons, ih, List.append_assoc]

lemma trialLoop_eq (data : List ℤ) (size : ℕ) (ε : ℝ)
    (draws : ℕ → List ℝ) (times : ℕ → ℝ) (ntrials : ℕ) :
    trialLoop data size ε draws times ntrials =
      ((trialRecords data size ε draws ntrials).map fun r => r.1,
        (trialRecords data size ε draws ntrials).map fun r => r.2.1,
        (trialRecords data size ε draws ntrials).map fun r => r.2.2,
        (List.range ntrials).map times) := by
  unfold trialLoop trialRecords
  rw [foldl_four_append
    (fun t => (analyze_data (data.take size) ε (draws t)).1)
    (fun t => (analyze_data (data.take size) ε (draws t)).2.1)
    (fun t => (analyze_data (data.take size) ε (draws t)).2.2) times]
  simp [List.map_map, Function.comp]

/-- C9: the Size Summary the driver computes (accumulator lists and
`np.mean`, source lines 62-80) reports exactly the arithmetic means over
all trials of true count, noised count, estimated count and elapsed time,
and `relative_error = |mean_estimated_count - mean_true_count| / s` with
the size `s` (not the true count) as denominator — the specification-side
`summarySpec`. -/
theorem summaryFor_eq_spec (data : List ℤ) (size : ℕ) (ε : ℝ)
    (draws : ℕ → List ℝ) (times : ℕ → ℝ) (ntrials : ℕ) :
    summaryFor data size ε draws times ntrials =
      summarySpec data size ε draws times ntrials := by
  unfold summaryFor summarySpec npMean
  rw [trialLoop_eq]
  simp only [trialRecords, List.map_map, List.length_map, List.length_range,
    Function.comp_def]

/-- C7: a requested size strictly larger than the dataset length yields no
Size Summary and aborts nothing: the sizes of the produced summaries are
exactly the requested sizes that fit the data, in order (so no truncated
substitute appears and later sizes are still processed). -/
theorem runBenchmark_skips_oversized (data : List ℤ) (ε : ℝ) (ntrials : ℕ)
    (sizes : List ℕ) (draws : ℕ → ℕ → List ℝ) (times : ℕ → ℕ → ℝ) :
    ((runBenchmark data ε ntrials sizes draws times).map SizeSummary.size =
        sizes.filter fun s => s ≤ data.length) ∧
      ∀ s ∈ sizes, data.length < s →
        s ∉ (runBenchmark data ε ntrials sizes draws times).map
            SizeSummary.size := by
  have key : ∀ (l : List ℕ) (dr : ℕ → ℕ → List ℝ) (tm : ℕ → ℕ → ℝ),
      (runBenchmark data ε ntrials l dr tm).map SizeSummary.size =
        l.filter fun s => s ≤ data.length := by
    intro l
    induction l with
    | nil => intro dr tm; rfl
    | cons s rest ih =>
      intro dr tm
      by_cases h : data.length < s
      · have hs : ¬ s ≤ data.length := Nat.not_le.mpr h
        simp only [runBenchmark, if_pos h]
        rw [ih]
        simp [List.filter_cons, hs]
      · have hs : s ≤ data.length := Nat.not_lt.mp h
        simp only [runBenchmark, if_neg h]
        rw [List.map_cons, ih]
        simp [List.filter_cons, hs, summaryFor]
  refine ⟨key sizes draws times, ?_⟩
  intro s hmem hlt hin
  rw [key] at hin
  have hle := List.of_mem_filter hin
  simp only [decide_eq_true_eq] at hle
  omega

/-- Witness for C7: data of length 2, requested sizes `[3, 1]`; size 3 is
absent from the output. -/
theorem runBenchmark_skips_oversized_witness :
    3 ∈ ([3, 1] : List ℕ) ∧ ([0, 1] : List ℤ).length < 3 ∧
      3 ∉ (runBenchmark [0, 1] 1 10 [3, 1] (fun _ _ => [])
            (fun _ _ => 0)).map SizeSummary.size :=
  ⟨by simp, by decide,
    (runBenchmark_skips_oversized [0, 1] 1 10 [3, 1] (fun _ _ => [])
      (fun _ _ => 0)).2 3 (by simp) (by decide)⟩

/-- C8: for a requested size `s` that fits the data, every trial of the
inner loop runs `analyze_data` on `data.take s` — the first `s`
observations in their original order, the same deterministic slice for
every one of the `ntrials` trials — and this slice has length `s` and is
an initial segment of the data (`take` followed by `drop` restores it). -/
theorem trials_use_first_s_rows (data : List ℤ) (s : ℕ) (ε : ℝ)
    (draws : ℕ → List ℝ) (times : ℕ → ℝ) (ntrials : ℕ)
    (hs : s ≤ data.length) :
    (trialLoop data s ε draws times ntrials).1 =
        (List.range ntrials).map
          (fun t => (analyze_data (data.take s) ε (draws t)).1) ∧
      (trialLoop data s ε draws times ntrials).2.1 =
        (List.range ntrials).map
          (fun t => (analyze_data (data.take s) ε (draws t)).2.1) ∧
      (trialLoop data s ε draws times ntrials).2.2.1 =
        (List.range ntrials).map
          (fun t => (analyze_data (data.take s) ε (draws t)).2.2) ∧
      (data.take s).length = s ∧
      data.take s ++ data.drop s = data := by
  refine ⟨?_, ?_, ?_, ?_, List.take_append_drop s data⟩
  · rw [trialLoop_eq]; simp [trialRecords, List.map_map, Function.comp]
  · rw [trialLoop_eq]; simp [trialRecords, List.map_map, Function.comp]
  · rw [trialLoop_eq]; simp [trialRecords, List.map_map, Function.comp]
  · rw [List.length_take]; exact min_eq_left hs

/-- Witness for C8 at `data = [0,1,1]`, `s = 2`, one trial. -/
theorem trials_use_first_s_rows_witness :
    2 ≤ ([0, 1, 1] : List ℤ).length ∧
      ((trialLoop [0, 1, 1] 2 1 (fun _ => [0, 0]) (fun _ => 0) 1).1 =
          (List.range 1).map
            (fun t => (analyze_data (([0, 1, 1] : List ℤ).take 2) 1
              ((fun _ : ℕ => ([0, 0] : List ℝ)) t)).1) ∧
        (trialLoop [0, 1, 1] 2 1 (fun _ => [0, 0]) (fun _ => 0) 1).2.1 =
          (List.range 1).map
            (fun t => (analyze_data (([0, 1, 1] : List ℤ).take 2) 1
              ((fun _ : ℕ => ([0, 0] : List ℝ)) t)).2.1) ∧
        (trialLoop [0, 1, 1] 2 1 (fun _ => [0, 0]) (fun _ => 0) 1).2.2.1 =
          (List.range 1).map
            (fun t => (analyze_data (([0, 1, 1] : List ℤ).take 2) 1
              ((fun _ : ℕ => ([0, 0] : List ℝ)) t)).2.2) ∧
        (([0, 1, 1] : List ℤ).take 2).length = 2 ∧
        ([0, 1, 1] : List ℤ).take 2 ++ ([0, 1, 1] : List ℤ).drop 2 =
          [0, 1, 1]) :=
  ⟨by decide,
    trials_use_first_s_rows [0, 1, 1] 2 1 (fun _ => [0, 0]) (fun _ => 0) 1
      (by decide)⟩
